import Mathlib

/-!
Verification of the Flask-IRC bot engine (flask_irc/bot.py, flask_irc/structs.py,
flask_irc/utils.py) against its natural-language specification.

The Python code is shallowly embedded: pure functions become Lean functions,
raising code returns `Option`/`Except`, and the stateful connection engine
becomes an explicit transition system.  Python strings are modelled as Lean
`String`s (the repository's `to_unicode` is the identity on text, so byte
decoding is not modelled).  Python string primitives (`split`, `partition`,
`lower`, slicing) are re-implemented below on the underlying character lists
so that every definition reduces inside the kernel.
-/

namespace FlaskIRC

/-! ## Python string primitives -/

/-- Python `s.split(sep)` for a single-character separator `sep`, on character
lists: splitting the empty string yields `[[]]` (Python: `[""]`), and adjacent
separators yield empty fields. -/
def splitChar (sep : Char) : List Char → List (List Char)
  | [] => [[]]
  | c :: cs =>
    if c = sep then [] :: splitChar sep cs
    else
      match splitChar sep cs with
      | [] => [[c]]
      | w :: ws => (c :: w) :: ws

/-- Python `s.split(' ')`. -/
def splitSp (s : String) : List String :=
  (splitChar ' ' s.data).map (fun cs => (⟨cs⟩ : String))

/-- Python `s.lower()` (ASCII fragment, which is all the repository uses). -/
def lowerStr (s : String) : String := ⟨s.data.map Char.toLower⟩

/-- Python `s.upper()` (ASCII fragment). -/
def upperStr (s : String) : String := ⟨s.data.map Char.toUpper⟩

/-- Python `s[n:]` (character-based slicing). -/
def dropStr (s : String) (n : Nat) : String := ⟨s.data.drop n⟩

/-- Python `s.startswith(p)`. -/
def startsWithStr (s p : String) : Bool := p.data.isPrefixOf s.data

/-- Python `s.split(sep, 1)` for a non-empty separator `sep`, on character
lists: `some (before, after)` when `sep` occurs (split at the first
occurrence), `none` when it does not (where the Python two-variable unpacking
of the result would raise `ValueError`). -/
def breakOnSub (sep : List Char) : List Char → Option (List Char × List Char)
  | [] => none
  | c :: cs =>
    if sep.isPrefixOf (c :: cs) then some ([], (c :: cs).drop sep.length)
    else
      match breakOnSub sep cs with
      | some (before, after) => some (c :: before, after)
      | none => none

/-- Python `s.partition(' ')` restricted to its first and third components
(the code never uses the separator component). -/
def partitionSp (s : String) : String × String :=
  match breakOnSub [' '] s.data with
  | some (a, b) => ((⟨a⟩ : String), (⟨b⟩ : String))
  | none => (s, "")

/-- Python `' '.join(l)` (generalized to any separator). -/
def joinStr (sep : String) : List String → String
  | [] => ""
  | [x] => x
  | x :: y :: xs => x ++ sep ++ joinStr sep (y :: xs)

/-- Association-list model of a Python `dict` read: first binding wins
(bindings are unique in all the dicts modelled here). -/
def assocGet {κ β : Type} [DecidableEq κ] : List (κ × β) → κ → Option β
  | [], _ => none
  | (k, v) :: rest, k2 => if k = k2 then some v else assocGet rest k2

/-- Python `del d[k]`, restricted to the mutation itself: removes the first
binding of `k` (the only one, for the dicts modelled here). -/
def assocErase {κ β : Type} [DecidableEq κ] : List (κ × β) → κ → List (κ × β)
  | [], _ => []
  | (k, v) :: rest, k2 => if k = k2 then rest else (k, v) :: assocErase rest k2

/-! ## CommandStorage (flask_irc/structs.py) -/

/-- The `CommandStorage._dict` mapping from word-sequence keys to entries,
modelled as an association list with unique keys. -/
abbrev Storage (α : Type) : Type := List (List String × α)

/-- `CommandStorage._get_key`: lower-case the name and split it on single
spaces (the default `splitter`). -/
def getKey (cmd : String) : List String := splitSp (lowerStr cmd)

/-- `CommandStorage.__setitem__`: raises `ValueError` (modelled as `.error`)
when the normalized key already exists, otherwise stores the entry under
exactly that key.  The Python raises before mutating, so on failure the
storage is unchanged. -/
def setItem {α : Type} (d : Storage α) (cmd : String) (v : α) : Except String (Storage α) :=
  if (assocGet d (getKey cmd)).isSome then
    .error ("Command " ++ cmd ++ " already exists")
  else
    .ok (d ++ [(getKey cmd, v)])

/-- `CommandStorage.__delitem__`: raises `KeyError` (modelled as `.error`)
when the normalized key is absent. -/
def delItem {α : Type} (d : Storage α) (cmd : String) : Except String (Storage α) :=
  if (assocGet d (getKey cmd)).isSome then
    .ok (assocErase d (getKey cmd))
  else
    .error cmd

/-- The index-descending search loop of `CommandStorage.lookup`: starting at
`len(parts)` and counting down to 0, return the first (hence longest) match
together with the index; if nothing matches — not even the empty key at
index 0 — report `none` with index 0 (in Python the loop variable ends at 0
and the `else` clause sets `function = None`). -/
def lookupIdx {α : Type} (d : Storage α) (parts : List String) : Nat → Option α × Nat
  | 0 => (assocGet d (parts.take 0), 0)
  | n + 1 =>
    match assocGet d (parts.take (n + 1)) with
    | some f => (some f, n + 1)
    | none => lookupIdx d parts n

/-- `CommandStorage.lookup`: tokenize the line (original case for the
returned arguments, lower case for key comparison) and return the longest
matching entry plus the tokens after the matched part. -/
def lookup {α : Type} (d : Storage α) (line : String) : Option α × List String :=
  let args := splitSp line
  let parts := getKey line
  let r := lookupIdx d parts parts.length
  (r.1, args.drop r.2)

/-! ## C1: longest-matching-prefix lookup -/

theorem lookupIdx_spec {α : Type} (d : Storage α) (parts : List String) (n : Nat) :
    (∀ e i, lookupIdx d parts n = (some e, i) →
      i ≤ n ∧ assocGet d (parts.take i) = some e ∧
        ∀ j, i < j → j ≤ n → assocGet d (parts.take j) = none) ∧
    (∀ i, lookupIdx d parts n = (none, i) →
      i = 0 ∧ ∀ j, j ≤ n → assocGet d (parts.take j) = none) := by
  induction n with
  | zero =>
    constructor
    · intro e i h
      simp only [lookupIdx] at h
      have h1 : assocGet d (parts.take 0) = some e := by
        have := congrArg Prod.fst h
        simpa using this
      have h2 : i = 0 := by
        have := congrArg Prod.snd h
        simpa using this.symm
      subst h2
      refine ⟨Nat.le_refl _, h1, ?_⟩
      intro j hj1 hj2
      omega
    · intro i h
      simp only [lookupIdx] at h
      have h1 : assocGet d (parts.take 0) = none := by
        have := congrArg Prod.fst h
        simpa using this
      have h2 : i = 0 := by
        have := congrArg Prod.snd h
        simpa using this.symm
      refine ⟨h2, ?_⟩
      intro j hj
      have : j = 0 := by omega
      simpa [this] using h1
  | succ n ih =>
    constructor
    · intro e i h
      simp only [lookupIdx] at h
      cases hg : assocGet d (parts.take (n + 1)) with
      | some f =>
        rw [hg] at h
        have he : f = e := by
          have := congrArg Prod.fst h
          simpa using this
        have hi : i = n + 1 := by
          have := congrArg Prod.snd h
          simpa using this.symm
        subst he hi
        refine ⟨Nat.le_refl _, hg, ?_⟩
        intro j hj1 hj2
        omega
      | none =>
        rw [hg] at h
        have := ih.1 e i h
        refine ⟨by omega, this.2.1, ?_⟩
        intro j hj1 hj2
        rcases Nat.lt_or_ge j (n + 1) with hlt | hge
        · exact this.2.2 j hj1 (by omega)
        · have : j = n + 1 := by omega
          simpa [this] using hg
    · intro i h
      simp only [lookupIdx] at h
      cases hg : assocGet d (parts.take (n + 1)) with
      | some f =>
        rw [hg] at h
        have := congrArg Prod.fst h
        simp at this
      | none =>
        rw [hg] at h
        have := ih.2 i h
        refine ⟨this.1, ?_⟩
        intro j hj
        rcases Nat.lt_or_ge j (n + 1) with hlt | hge
        · exact this.2 j (by omega)
        · have : j = n + 1 := by omega
          simpa [this] using hg

/-- C1: `CommandStorage.lookup` tokenizes the line and returns the entry of
the longest prefix of the (lower-cased) token list that is a registered key,
together with the original-case tokens after that prefix; when no prefix of
any length (including the empty one) is a key, it returns `none` and the
entire token list. -/
theorem lookup_longest_match (α : Type) (d : Storage α) (line : String) :
    (∀ e, (lookup d line).1 = some e →
      ∃ i, i ≤ (getKey line).length ∧
        assocGet d ((getKey line).take i) = some e ∧
        (lookup d line).2 = (splitSp line).drop i ∧
        ∀ j, i < j → j ≤ (getKey line).length →
          assocGet d ((getKey line).take j) = none) ∧
    ((lookup d line).1 = none →
      (lookup d line).2 = splitSp line ∧
      ∀ i, i ≤ (getKey line).length → assocGet d ((getKey line).take i) = none) := by
  have hs := lookupIdx_spec d (getKey line) (getKey line).length
  constructor
  · intro e he
    rcases hr : lookupIdx d (getKey line) (getKey line).length with ⟨f, i⟩
    have hf : f = some e := by
      simp only [lookup, hr] at he
      exact he
    subst hf
    have h := hs.1 e i hr
    exact ⟨i, h.1, h.2.1, by simp only [lookup, hr], h.2.2⟩
  · intro he
    rcases hr : lookupIdx d (getKey line) (getKey line).length with ⟨f, i⟩
    have hf : f = none := by
      simp only [lookup, hr] at he
      exact he
    subst hf
    have h := hs.2 i hr
    constructor
    · simp only [lookup, hr, h.1, List.drop_zero]
    · exact h.2

/-- Example storage from the `CommandStorage` docstring (keys are stored
lower-cased by `__setitem__`). -/
def demoTable : Storage String :=
  [(["playlist", "off"], "func_playlist_off"),
   (["playlist"], "func_show_playlist"),
   (["playlist", "on"], "func_playlist_on")]

theorem lookup_longest_match_witness :
    lookup demoTable "playlist off lol" = (some "func_playlist_off", ["lol"]) ∧
    lookup demoTable "playlist xx y" = (some "func_show_playlist", ["xx", "y"]) ∧
    lookup demoTable "nothing" = (none, ["nothing"]) ∧
    ∃ i, i ≤ (getKey "playlist off lol").length ∧
      assocGet demoTable ((getKey "playlist off lol").take i) = some "func_playlist_off" ∧
      (lookup demoTable "playlist off lol").2 = (splitSp "playlist off lol").drop i ∧
      ∀ j, i < j → j ≤ (getKey "playlist off lol").length →
        assocGet demoTable ((getKey "playlist off lol").take j) = none :=
  ⟨by decide, by decide, by decide,
   (lookup_longest_match String demoTable "playlist off lol").1 "func_playlist_off" (by decide)⟩

/-! ## C8: duplicate rejection in `__setitem__` -/

theorem assocGet_append {κ β : Type} [DecidableEq κ] (l1 l2 : List (κ × β)) (k : κ) :
    assocGet (l1 ++ l2) k =
      match assocGet l1 k with
      | some v => some v
      | none => assocGet l2 k := by
  induction l1 with
  | nil => simp [assocGet]
  | cons p rest ih =>
    rcases p with ⟨k2, v2⟩
    by_cases h : k2 = k <;> simp [assocGet, h, ih]

/-- C8: `CommandStorage.__setitem__` fails with a duplicate-command error
exactly when the lower-cased, whitespace-split word sequence of the name is
already a key of the table; on failure the table is unchanged (the error is
raised before any mutation, which the `Except` model reflects by returning no
table), and on success the entry is appended under exactly that key.  Names
differing only in case collide because they normalize to the same key. -/
theorem setItem_duplicate (α : Type) (d : Storage α) (cmd : String) (v : α) :
    (match setItem d cmd v with
     | .error _ => (assocGet d (getKey cmd)).isSome = true
     | .ok d2 => assocGet d (getKey cmd) = none ∧ d2 = d ++ [(getKey cmd, v)] ∧
         assocGet d2 (getKey cmd) = some v) ∧
    (∀ s1 s2 : String, lowerStr s1 = lowerStr s2 → getKey s1 = getKey s2) := by
  constructor
  · by_cases h : (assocGet d (getKey cmd)).isSome = true
    · rw [setItem, if_pos h]
      exact h
    · rw [setItem, if_neg h]
      have hn : assocGet d (getKey cmd) = none := by
        cases hg : assocGet d (getKey cmd) with
        | none => rfl
        | some w => exact absurd (by rw [hg]; rfl) h
      refine ⟨hn, rfl, ?_⟩
      rw [assocGet_append, hn]
      simp [assocGet]
  · intro s1 s2 h
    simp only [getKey, h]

theorem setItem_duplicate_witness :
    (assocGet demoTable (getKey "PLAYlist off")).isSome = true ∧
    getKey "Playlist" = getKey "playLIST" := by
  have h := setItem_duplicate String demoTable "PLAYlist off" "func2"
  constructor
  · have h1 := h.1
    have he : setItem demoTable "PLAYlist off" "func2" =
        .error "Command PLAYlist off already exists" := rfl
    rw [he] at h1
    exact h1
  · exact h.2 "Playlist" "playLIST" (by decide)

/-! ## Protocol line parsing (IRCMessage / IRCSource) -/

/-- Parsed source of a line.  `ident`/`host` are present exactly when the
source text contained `!` (the `complete` flag). -/
structure IRCSource where
  nick : String
  ident : Option String
  host : Option String
  complete : Bool
deriving DecidableEq

/-- `IRCSource.__init__` (textually identical in bot.py and structs.py): a
source containing `!` must split as `nick!ident@host`; when the part after
the first `!` contains no `@`, the two-variable unpacking of `split('@', 1)`
raises `ValueError` (modelled as `none`).  A source without `!` is a bare
nick with no ident/host. -/
def parseSource (source : String) : Option IRCSource :=
  if source.data.contains '!' then
    match breakOnSub ['!'] source.data with
    | none => none
    | some (nick, identHost) =>
      match breakOnSub ['@'] identHost with
      | none => none
      | some (ident, host) =>
        some { nick := ⟨nick⟩, ident := some ⟨ident⟩, host := some ⟨host⟩, complete := true }
  else
    some { nick := source, ident := none, host := none, complete := false }

/-- Parsed protocol message.  `source = none` models the falsy
`IRCSourceNone` sentinel used for unprefixed lines. -/
structure IRCMessage where
  line : String
  source : Option IRCSource
  cmd : String
  args : List String
deriving DecidableEq

/-- Argument splitting shared by both `IRCMessage.__init__` versions: a rest
starting with `:` is one single argument; otherwise everything before the
first ` :` is space-split and the text after it is one final argument; with
no ` :` the whole rest is space-split. -/
def parseArgs (rest : String) : List String :=
  if startsWithStr rest ":" then [dropStr rest 1]
  else
    match breakOnSub [' ', ':'] rest.data with
    | some (before, after) => splitSp ⟨before⟩ ++ [(⟨after⟩ : String)]
    | none => splitSp rest

/-- Command/args step of the bot.py `IRCMessage.__init__`: `cmd, line =
line.split(' ', 1)` raises `ValueError` when the remaining text has no
space — e.g. on the single-token line `PING`. -/
def mkMsgBot (line : String) (src : Option IRCSource) (rest : String) : Option IRCMessage :=
  (breakOnSub [' '] rest.data).map
    (fun p => { line := line, source := src, cmd := upperStr ⟨p.1⟩, args := parseArgs ⟨p.2⟩ })

/-- bot.py `IRCMessage.__init__` (the class actually used by
`Bot._parse_line`): `line[0]` raises on an empty line, and both token splits
use the fallible `split(' ', 1)` unpacking. -/
def parseBot (line : String) : Option IRCMessage :=
  if line = "" then none
  else if startsWithStr line ":" then
    match breakOnSub [' '] (dropStr line 1).data with
    | none => none
    | some (src, rest) =>
      match parseSource ⟨src⟩ with
      | none => none
      | some s => mkMsgBot line (some s) ⟨rest⟩
  else mkMsgBot line none line

/-- Command/args step of the structs.py `IRCMessage.__init__`:
`cmd, _, line = line.partition(' ')` is total. -/
def mkMsgStructs (line : String) (src : Option IRCSource) (rest : String) : IRCMessage :=
  { line := line, source := src, cmd := upperStr (partitionSp rest).1,
    args := parseArgs (partitionSp rest).2 }

/-- structs.py `IRCMessage.__init__`: identical to the bot.py version except
that both token splits use the total `partition(' ')`. -/
def parseStructs (line : String) : Option IRCMessage :=
  if line = "" then none
  else if startsWithStr line ":" then
    match parseSource (partitionSp (dropStr line 1)).1 with
    | none => none
    | some s => some (mkMsgStructs line (some s) (partitionSp (dropStr line 1)).2)
  else some (mkMsgStructs line none line)

/-! ## C2: totality of protocol line parsing -/

/-- C2 counterexample: constructing a message is not total over non-empty
lines.  The bot.py parser (the one `Bot._parse_line` uses) raises
`ValueError` on the single-token line `PING`, and both parsers raise on a
prefixed line whose source contains `!` but no `@`. -/
theorem parse_total_counterexample :
    parseBot "PING" = none ∧
    parseStructs ":nick!user PRIVMSG #chan :hi" = none ∧
    parseBot ":nick!user PRIVMSG #chan :hi" = none :=
  ⟨by decide, by decide, by decide⟩

/-- C2 amended: construction succeeds for every line that is non-empty after
trimming the trailing CR provided that (a) a leading-colon source token
containing `!` also contains `@` after the first `!`, and (b) for the bot.py
parser only, the line contains the space separators its `split(' ', 1)`
unpackings require.  Single-token lines such as `PING` succeed only in the
partition-based structs.py parser. -/
theorem parse_total_amended :
    (∀ line : String, line ≠ "" →
      (startsWithStr line ":" = true →
        (parseSource (partitionSp (dropStr line 1)).1).isSome = true) →
      (parseStructs line).isSome = true) ∧
    (∀ line : String, line ≠ "" → startsWithStr line ":" = false →
      (breakOnSub [' '] line.data).isSome = true →
      (parseBot line).isSome = true) ∧
    (∀ (line : String) (s r : List Char), line ≠ "" → startsWithStr line ":" = true →
      breakOnSub [' '] (dropStr line 1).data = some (s, r) →
      (parseSource ⟨s⟩).isSome = true →
      (breakOnSub [' '] r).isSome = true →
      (parseBot line).isSome = true) := by
  refine ⟨?_, ?_, ?_⟩
  · intro line hne hsrc
    by_cases hc : startsWithStr line ":" = true
    · cases hp : parseSource (partitionSp (dropStr line 1)).1 with
      | none =>
        have hx := hsrc hc
        rw [hp] at hx
        simp at hx
      | some s => simp [parseStructs, hne, hc, hp]
    · have hc2 : startsWithStr line ":" = false := by
        cases hcc : startsWithStr line ":"
        · rfl
        · exact absurd hcc hc
      simp [parseStructs, hne, hc2]
  · intro line hne hc hbr
    cases hb : breakOnSub [' '] line.data with
    | none => rw [hb] at hbr; simp at hbr
    | some p =>
      rcases p with ⟨c, r⟩
      simp [parseBot, mkMsgBot, hne, hc, hb]
  · intro line s r hne hc hbr hps hcmd
    cases hp : parseSource (⟨s⟩ : String) with
    | none => rw [hp] at hps; simp at hps
    | some src =>
      cases hb : breakOnSub [' '] r with
      | none => rw [hb] at hcmd; simp at hcmd
      | some p =>
        rcases p with ⟨c, r2⟩
        have hb2 : breakOnSub [' '] (String.mk r).data = some (c, r2) := hb
        simp [parseBot, mkMsgBot, hne, hc, hbr, hp, hb2]

theorem parse_total_amended_witness :
    (parseStructs "PING").isSome = true ∧
    (parseBot ":srv!id@host 001 Bob :Welcome").isSome = true := by
  constructor
  · exact parse_total_amended.1 "PING" (by decide) (by decide)
  · exact parse_total_amended.2.2 ":srv!id@host 001 Bob :Welcome"
      ("srv!id@host" : String).data ("001 Bob :Welcome" : String).data
      (by decide) (by decide) (by decide) (by decide) (by decide)

/-! ## Inbound PRIVMSG handling (Bot._handle_privmsg) -/

/-- Observable outcome of `Bot._handle_privmsg`: the NOTICE lines the method
itself sends, and the command invocation it hands to `_run_command`
(entry, channel, positional args), if any. -/
structure PrivmsgOutcome (α : Type) where
  sent : List String
  invoked : Option (α × Option String × List String)
deriving DecidableEq

/-- Message-acceptance step of `Bot._handle_privmsg`: a message addressed to
the bot's own nick is a direct message (no channel); otherwise the configured
trigger must be truthy (`not trigger` is true for both `None` and the empty
string) and the text must start with it, in which case it is stripped with
`line[len(trigger):]`.  `none` means the method returns without doing
anything. -/
def effectiveLine (botNick : String) (trigger : Option String) (target text : String) :
    Option (Option String × String) :=
  if target = botNick then some (none, text)
  else
    match trigger with
    | none => none
    | some t =>
      if t = "" then none
      else if startsWithStr text t then some (some target, dropStr text t.length)
      else none

/-- `Bot._handle_privmsg` for a message with `msg[0] = target` and
`msg[1] = text`.  `CommandStorage.lookup` is total and never raises
`ValueError`, so the `except ValueError` branch (the only place this method
sends a NOTICE, addressed to the sender's nick) is unreachable; a lookup miss
makes `if cmd:` false and the method falls through doing nothing. -/
def handlePrivmsg {α : Type} (botNick : String) (trigger : Option String)
    (cmds : Storage α) (target text _srcNick : String) : PrivmsgOutcome α :=
  match effectiveLine botNick trigger target text with
  | none => { sent := [], invoked := none }
  | some (channel, line) =>
    match lookup cmds line with
    | (none, _) => { sent := [], invoked := none }
    | (some c, args) => { sent := [], invoked := some (c, channel, args) }

/-! ## C3: behaviour on a command-lookup miss -/

/-- C3 counterexample: a direct message whose command lookup finds no entry
is silently ignored — no NOTICE line is produced, although the claim asserts
one.  The table is empty, the message is addressed to the bot's nick, and
lookup misses. -/
theorem lookup_miss_notice_counterexample :
    (lookup ([] : Storage String) "nothing").1 = none ∧
    (handlePrivmsg "FlaskBot" none ([] : Storage String) "FlaskBot" "nothing" "alice").sent
      = [] ∧
    (handlePrivmsg "FlaskBot" none ([] : Storage String) "FlaskBot" "nothing" "alice").invoked
      = none :=
  ⟨by decide, by decide, by decide⟩

/-- C3 amended: when an accepted message's command lookup finds no matching
command, `_handle_privmsg` does nothing at all — no handler is invoked, no
NOTICE (or any other line) is sent, and no state changes.  The failure-notice
branch fires only for a `ValueError` raised by lookup, which the total
lookup never raises. -/
theorem lookup_miss_silent {α : Type} (botNick : String) (trigger : Option String)
    (cmds : Storage α) (target text srcNick : String) (channel : Option String)
    (line : String)
    (hacc : effectiveLine botNick trigger target text = some (channel, line))
    (hmiss : (lookup cmds line).1 = none) :
    handlePrivmsg botNick trigger cmds target text srcNick =
      { sent := [], invoked := none } := by
  rcases hl : lookup cmds line with ⟨f, args⟩
  have hf : f = none := by rw [hl] at hmiss; exact hmiss
  subst hf
  simp [handlePrivmsg, hacc, hl]

theorem lookup_miss_silent_witness :
    handlePrivmsg "FlaskBot" (some "!") demoTable "#chan" "!unknown cmd" "alice" =
      { sent := [], invoked := none } :=
  lookup_miss_silent "FlaskBot" (some "!") demoTable "#chan" "!unknown cmd" "alice"
    (some "#chan") "unknown cmd" (by decide) (by decide)

/-! ## C10: no trigger configured means channel messages are never commands -/

/-- C10: with the trigger configuration at its default (`IRC_TRIGGER = None`),
a PRIVMSG whose destination is not the bot's own nick is never treated as a
command, whatever its text: `not trigger` is true, the method returns before
any lookup, no handler is invoked, and nothing is sent. -/
theorem no_trigger_ignores_channel {α : Type} (botNick : String) (cmds : Storage α)
    (target text srcNick : String) (hneq : target ≠ botNick) :
    handlePrivmsg botNick none cmds target text srcNick =
      { sent := [], invoked := none } := by
  simp [handlePrivmsg, effectiveLine, hneq]

theorem no_trigger_ignores_channel_witness :
    handlePrivmsg "FlaskBot" none demoTable "#music" "playlist off" "alice" =
      { sent := [], invoked := none } :=
  no_trigger_ignores_channel "FlaskBot" demoTable "#music" "playlist off" "alice" (by decide)

/-! ## Connection engine write buffer and watcher flags (C4) -/

/-- Watcher-visible connection state while `self.watcher` exists: the write
buffer, the EV_WRITE and EV_READ interest bits of the I/O watcher, and the
`_stop_loop` flag set by a graceful stop. -/
structure ConnState where
  writebuf : String
  wflag : Bool
  rflag : Bool
  stopPending : Bool
deriving DecidableEq

/-- `Bot.send`: append `line + CRLF` to the write buffer and OR EV_WRITE
into the watcher's event mask. -/
def sendOp (s : ConnState) (line : String) : ConnState :=
  { s with writebuf := s.writebuf ++ line ++ "\r\n", wflag := true }

/-- Success path of `Bot._io_write`: `num` bytes were sent, the sent part is
dropped, and when the buffer is empty EV_WRITE is cleared (a transient
would-block error leaves the state unchanged and is not modelled as a
separate step). -/
def ioWriteOp (s : ConnState) (num : Nat) : ConnState :=
  let buf2 := dropStr s.writebuf num
  if buf2 = "" then { s with writebuf := "", wflag := false }
  else { s with writebuf := buf2 }

/-- `Bot.stop`: a graceful stop replaces the event mask by exactly EV_WRITE
(regardless of the buffer) and sets `_stop_loop`; a non-graceful stop halts
the loop without touching the watcher state. -/
def stopOp (s : ConnState) (graceful : Bool) : ConnState :=
  if graceful then { s with wflag := true, rflag := false, stopPending := true }
  else s

/-- States reachable through the connection engine's operations while the
watcher exists.  The initial state is the one `_connect` establishes: empty
write buffer, EV_READ-only watcher.  `_io_write` runs only when the loop
reports the socket writable, i.e. when EV_WRITE is set. -/
inductive ReachableConn : ConnState → Prop
  | init : ReachableConn { writebuf := "", wflag := false, rflag := true, stopPending := false }
  | send (s : ConnState) (line : String) : ReachableConn s → ReachableConn (sendOp s line)
  | ioWrite (s : ConnState) (num : Nat) : ReachableConn s → s.wflag = true →
      ReachableConn (ioWriteOp s num)
  | stop (s : ConnState) (g : Bool) : ReachableConn s → ReachableConn (stopOp s g)

/-- C4 counterexample: the lockstep iff fails.  Connect, send the NICK
registration line, let `_io_write` drain it fully (EV_WRITE cleared), then
call `stop(graceful=True)`: the resulting reachable state has EV_WRITE set
while the write buffer is empty. -/
theorem writebuf_lockstep_counterexample :
    ReachableConn { writebuf := "", wflag := true, rflag := false, stopPending := true } ∧
    ¬ (({ writebuf := "", wflag := true, rflag := false, stopPending := true }
          : ConnState).writebuf ≠ "" ↔
       ({ writebuf := "", wflag := true, rflag := false, stopPending := true }
          : ConnState).wflag = true) := by
  constructor
  · have h0 := ReachableConn.init
    have h1 := ReachableConn.send _ "NICK FlaskBot" h0
    have h2 := ReachableConn.ioWrite _ 15 h1 (by decide)
    have h3 := ReachableConn.stop _ true h2
    have he : stopOp (ioWriteOp (sendOp
        { writebuf := "", wflag := false, rflag := true, stopPending := false }
        "NICK FlaskBot") 15) true =
        { writebuf := "", wflag := true, rflag := false, stopPending := true } := by decide
    rw [he] at h3
    exact h3
  · intro h
    have := h.mpr rfl
    simp at this

/-- C4 amended: in every reachable state, a non-empty write buffer implies
EV_WRITE is set; conversely EV_WRITE set implies the buffer is non-empty or a
graceful stop is pending (`stop(graceful=True)` forces EV_WRITE on with an
empty buffer so the drain check in `_io_cb` still runs). -/
theorem writebuf_lockstep_amended (s : ConnState) (h : ReachableConn s) :
    (s.writebuf ≠ "" → s.wflag = true) ∧
    (s.wflag = true → s.writebuf ≠ "" ∨ s.stopPending = true) := by
  induction h with
  | init => exact ⟨fun h => absurd rfl h, fun h => by simp at h⟩
  | send s line _ ih => exact ⟨fun _ => rfl, fun _ => Or.inl (by
      simp only [sendOp]
      intro hx
      have : (s.writebuf ++ line ++ "\r\n").data = "".data := by rw [hx]
      simp at this)⟩
  | ioWrite s num _ hw ih =>
    by_cases hb : dropStr s.writebuf num = ""
    · constructor
      · intro hx
        simp only [ioWriteOp, hb, if_pos] at hx ⊢
        exact absurd rfl hx
      · intro hx
        simp only [ioWriteOp, hb, if_pos] at hx
        simp at hx
    · constructor
      · intro _
        simp only [ioWriteOp, if_neg hb]
        exact hw
      · intro _
        simp only [ioWriteOp, if_neg hb]
        exact Or.inl hb
  | stop s g _ ih =>
    cases g with
    | false => exact ⟨ih.1, ih.2⟩
    | true =>
      constructor
      · intro _
        rfl
      · intro _
        exact Or.inr rfl

theorem writebuf_lockstep_amended_witness :
    (({ writebuf := "", wflag := true, rflag := false, stopPending := true }
        : ConnState).writebuf ≠ "" →
      ({ writebuf := "", wflag := true, rflag := false, stopPending := true }
        : ConnState).wflag = true) ∧
    (({ writebuf := "", wflag := true, rflag := false, stopPending := true }
        : ConnState).wflag = true →
      ({ writebuf := "", wflag := true, rflag := false, stopPending := true }
        : ConnState).writebuf ≠ "" ∨
      ({ writebuf := "", wflag := true, rflag := false, stopPending := true }
        : ConnState).stopPending = true) :=
  writebuf_lockstep_amended
    { writebuf := "", wflag := true, rflag := false, stopPending := true }
    (ReachableConn.stop _ true ReachableConn.init)

/-! ## Ready event (C6) -/

/-- Event-relevant bot state: the `ready` flag and a log of handler
invocations (handlers are identified by name; firing an event appends the
registered handlers for that event, in registration order). -/
structure EventState where
  ready : Bool
  log : List String
deriving DecidableEq

/-- `Bot.trigger_ready`: fire the READY handlers only when the flag is not
yet set, and set it. -/
def triggerReady (readyHandlers : List String) (s : EventState) : EventState :=
  if s.ready then s
  else { ready := true, log := s.log ++ readyHandlers }

/-- `Bot._close` restricted to the event state: fires DISCONNECT and resets
the `ready` flag. -/
def closeConn (disconnectHandlers : List String) (s : EventState) : EventState :=
  { ready := false, log := s.log ++ disconnectHandlers }

/-- C6: triggering `ready` twice equals triggering it once (the second call
is a no-op), from a not-yet-ready state the handlers are appended exactly
once, `trigger_ready` always leaves the flag set (it never resets it), and
only `_close` (connection teardown) resets it. -/
theorem trigger_ready_idempotent (rh dh : List String) (s : EventState) :
    triggerReady rh (triggerReady rh s) = triggerReady rh s ∧
    (s.ready = false → (triggerReady rh s).log = s.log ++ rh) ∧
    (s.ready = true → triggerReady rh s = s) ∧
    (triggerReady rh s).ready = true ∧
    (closeConn dh s).ready = false := by
  by_cases h : s.ready = true
  · refine ⟨?_, ?_, fun _ => by simp [triggerReady, h], ?_, rfl⟩
    · simp [triggerReady, h]
    · intro hx
      rw [hx] at h
      simp at h
    · simp [triggerReady, h]
  · have h2 : s.ready = false := by
      cases hr : s.ready
      · rfl
      · exact absurd hr h
    refine ⟨?_, fun _ => by simp [triggerReady, h2], ?_, ?_, rfl⟩
    · simp [triggerReady, h2]
    · intro hx
      rw [hx] at h2
      simp at h2
    · simp [triggerReady, h2]

theorem trigger_ready_idempotent_witness :
    (triggerReady ["on_ready_a", "on_ready_b"]
        { ready := false, log := ["on_connect"] }).log =
      ["on_connect"] ++ ["on_ready_a", "on_ready_b"] :=
  (trigger_ready_idempotent ["on_ready_a", "on_ready_b"] ["on_disconnect"]
    { ready := false, log := ["on_connect"] }).2.1 rfl

/-! ## Argument binder (_BotCommand._make_parser and __call__) -/

/-- Value of a parameter default or binding; the repository uses boolean
switches and string-typed options/positionals. -/
inductive PVal where
  | bool (b : Bool)
  | str (s : String)
deriving DecidableEq

/-- Action of a declared option: a switch storing `b` when the flag is
present (`store_true`/`store_false`, i.e. the negation of the default), or
an option taking one string value. -/
inductive OptAction where
  | store (b : Bool)
  | strArg
deriving DecidableEq

structure OptSpec where
  dest : String
  long : String
  short : Option String
  action : OptAction
  dflt : PVal
deriving DecidableEq

structure ParserSpec where
  opts : List OptSpec
  positionals : List String
deriving DecidableEq

/-- Python `arg[0]`, as a one-character string (parameter names are never
empty in Python). -/
def firstLetter (s : String) : String := ⟨s.data.take 1⟩

/-- The `{argname: defaultvalue}` mapping of `_make_parser`:
`dict(zip(*[reversed(l) for l in (args, defaults or [])]))` attaches the
default values to the trailing parameters. -/
def buildDefaults (args : List String) (defaults : List PVal) : List (String × PVal) :=
  List.zip args.reverse defaults.reverse

/-- The `add_argument` loop of `_make_parser`, options part: a parameter with
a default becomes the option `--name`; the single-letter alias `-x` (first
letter of the name) is added only when that letter is not `h` and no OTHER
parameter of the signature — option or positional alike — shares it
(`arg[0] != 'h' and not any(arg[0] == a[0] and arg != a for a in args)`).
A boolean default yields a switch storing the negation of the default, any
other default an option taking one string value. -/
def buildOpts (args : List String) (dm : List (String × PVal)) : List OptSpec :=
  args.filterMap (fun arg =>
    match assocGet dm arg with
    | none => none
    | some dv =>
      some { dest := arg, long := "--" ++ arg,
             short :=
               if (firstLetter arg != "h") &&
                  !(args.any (fun a => (firstLetter a == firstLetter arg) && (a != arg)))
               then some ("-" ++ firstLetter arg) else none,
             action := match dv with | .bool b => .store (!b) | .str _ => .strArg,
             dflt := dv })

/-- `_BotCommand._make_parser` given the `inspect.getargspec` data of the
handler: the parameter names (including the two fixed leading `source` and
`channel`, removed by `del args[:2]`), the trailing-aligned default values,
the command's greedy flag and the signature's `*args`/`**kwargs` flags.
Raises (modelled as `.error`) on `**kwargs`, on greedy combined with
`*args`, and (`IndexError` on `[-1]`) on a greedy command all of whose
parameters have defaults.  Parameters without a default are positional in
declaration order; the greedy argument is the last parameter without a
default. -/
def makeParser (argNames : List String) (defaults : List PVal)
    (greedy varargs kwargs : Bool) : Except String (ParserSpec × Option String) :=
  if kwargs then .error "A command function cannot accept kwargs"
  else if greedy && varargs then
    .error "A command with a greedy argument cannot accept varargs"
  else
    let args := argNames.drop 2
    let dm := buildDefaults args defaults
    let positional := args.filter (fun a => (assocGet dm a).isNone)
    if greedy then
      match positional.getLast? with
      | none => .error "IndexError"
      | some g => .ok ({ opts := buildOpts args dm, positionals := positional }, some g)
    else .ok ({ opts := buildOpts args dm, positionals := positional }, none)

/-- Option lookup by long or short option string. -/
def findOpt (opts : List OptSpec) (tok : String) : Option OptSpec :=
  opts.find? (fun o => o.long == tok || o.short == some tok)

/-- Option-like token test (a bare `-` counts as positional). -/
def looksLikeOption (t : String) : Bool := startsWithStr t "-" && t != "-"

/-- Namespace update: replace the binding of `k`, appending when absent. -/
def nsSet : List (String × PVal) → String → PVal → List (String × PVal)
  | [], k, v => [(k, v)]
  | (k2, v2) :: rest, k, v =>
    if k2 = k then (k, v) :: rest else (k2, v2) :: nsSet rest k v

/-- Modelled from the external Python argparse library (a stdlib
collaborator, not repository code): `parse_known_args` over the parser
shapes `_make_parser` builds — switches, single-value string options,
single-token positionals.  Tokens are scanned left to right; an option-like
token matching a declared option string is consumed (with its value for
string options, erroring when the value is missing), an unmatched
option-like token goes to the extras, any other token fills the next
pending positional and then overflows into the extras; pending positionals
at the end are an error (argparse: "too few arguments"). -/
def parseKnownAux (opts : List OptSpec) :
    List String → List (String × PVal) → List String → List String →
    Except String (List (String × PVal) × List String)
  | [], ns, posLeft, extras =>
    if posLeft = [] then .ok (ns, extras.reverse) else .error "too few arguments"
  | t :: ts, ns, posLeft, extras =>
    if looksLikeOption t then
      match findOpt opts t with
      | some o =>
        match o.action with
        | .store b => parseKnownAux opts ts (nsSet ns o.dest (.bool b)) posLeft extras
        | .strArg =>
          match ts with
          | [] => .error "expected one argument"
          | v :: ts2 => parseKnownAux opts ts2 (nsSet ns o.dest (.str v)) posLeft extras
      | none => parseKnownAux opts ts ns posLeft (t :: extras)
    else
      match posLeft with
      | [] => parseKnownAux opts ts ns posLeft (t :: extras)
      | pdest :: prest => parseKnownAux opts ts (nsSet ns pdest (.str t)) prest extras

/-- Initial namespace: every option starts at its default (positionals are
always bound on success, so no initial binding is needed for them). -/
def initNS (p : ParserSpec) : List (String × PVal) :=
  p.opts.map (fun o => (o.dest, o.dflt))

def parseKnown (p : ParserSpec) (tokens : List String) :
    Except String (List (String × PVal) × List String) :=
  parseKnownAux p.opts tokens (initNS p) p.positionals []

/-- `_BotCommand.__call__`, binding phase: greedy or `*args` commands use
`parse_known_args`, all others `parse_args` (which errors on leftover
tokens).  For a greedy command the greedy destination is re-bound to its
value joined with all remaining tokens by single spaces
(`' '.join([kwargs[self._greedy_arg]] + remaining)`) and the remaining list
is emptied.  Errors model `_ParserExit` escalating to `CommandAborted`. -/
def callCommand (p : ParserSpec) (greedyArg : Option String) (greedy varargs : Bool)
    (args : List String) : Except String (List (String × PVal) × List String) :=
  if varargs || greedy then
    match parseKnown p args with
    | .error e => .error e
    | .ok (ns, remaining) =>
      if greedy then
        match greedyArg with
        | none => .error "KeyError"
        | some g =>
          match assocGet ns g with
          | some (.str sv) => .ok (nsSet ns g (.str (joinStr " " (sv :: remaining))), [])
          | _ => .error "KeyError"
      else .ok (ns, remaining)
  else
    match parseKnown p args with
    | .error e => .error e
    | .ok (ns, remaining) =>
      if remaining = [] then .ok (ns, []) else .error "unrecognized arguments"

/-! ## C5: greedy argument binding -/

theorem parseKnownAux_no_options (opts : List OptSpec) :
    ∀ (ts : List String) (ns : List (String × PVal)) (extras : List String),
      (∀ t ∈ ts, looksLikeOption t = false) →
      parseKnownAux opts ts ns [] extras = .ok (ns, extras.reverse ++ ts) := by
  intro ts
  induction ts with
  | nil =>
    intro ns extras h
    simp [parseKnownAux]
  | cons t ts ih =>
    intro ns extras h
    have ht : looksLikeOption t = false := h t (by simp)
    simp only [parseKnownAux, ht, Bool.false_eq_true, if_false]
    rw [ih ns (t :: extras) (fun x hx => h x (by simp [hx]))]
    simp

/-- Parser built by `_make_parser` for the claim's greedy handler: in Python
a defaulted parameter must follow the positional ones, so the handler shape
"(force=False, reason) with reason greedy-last" is declared as
`def f(source, channel, reason, force=False)` with the greedy flag set;
`reason` is the last default-less parameter and hence the greedy argument. -/
def greedyParser : ParserSpec :=
  { opts := [{ dest := "force", long := "--force", short := some "-f",
               action := .store true, dflt := .bool false }],
    positionals := ["reason"] }

/-- C5: for the greedy handler with parameters `reason` (greedy-last
positional) and `force` (default `False`), binding any non-empty token list
free of option-like tokens assigns `reason` the first token joined with all
remaining tokens by single spaces and leaves `force` at its default
`False`. -/
theorem greedy_binding (tokens : List String)
    (hopt : ∀ t ∈ tokens, looksLikeOption t = false) (hne : tokens ≠ []) :
    ∃ ns,
      makeParser ["source", "channel", "reason", "force"] [PVal.bool false] true false false =
        .ok (greedyParser, some "reason") ∧
      callCommand greedyParser (some "reason") true false tokens = .ok (ns, []) ∧
      assocGet ns "force" = some (.bool false) ∧
      assocGet ns "reason" = some (.str (joinStr " " tokens)) := by
  cases tokens with
  | nil => exact absurd rfl hne
  | cons t ts =>
    have ht : looksLikeOption t = false := hopt t (by simp)
    have hp : parseKnown greedyParser (t :: ts) =
        .ok ([("force", PVal.bool false), ("reason", PVal.str t)], ts) := by
      have h1 : parseKnown greedyParser (t :: ts) =
          parseKnownAux greedyParser.opts ts
            [("force", PVal.bool false), ("reason", PVal.str t)] [] [] := by
        show parseKnownAux greedyParser.opts (t :: ts) (initNS greedyParser) ["reason"] [] =
          parseKnownAux greedyParser.opts ts
            [("force", PVal.bool false), ("reason", PVal.str t)] [] []
        simp only [parseKnownAux, ht, Bool.false_eq_true, if_false]
        rfl
      rw [h1, parseKnownAux_no_options greedyParser.opts ts _ []
        (fun x hx => hopt x (by simp [hx]))]
      rfl
    refine ⟨[("force", PVal.bool false),
             ("reason", PVal.str (joinStr " " (t :: ts)))], rfl, ?_, rfl, ?_⟩
    · simp only [callCommand, Bool.false_or, if_true, hp]
      rfl
    · rfl

theorem greedy_binding_witness :
    ∃ ns,
      makeParser ["source", "channel", "reason", "force"] [PVal.bool false] true false false =
        .ok (greedyParser, some "reason") ∧
      callCommand greedyParser (some "reason") true false ["urgent", "need", "restart"] =
        .ok (ns, []) ∧
      assocGet ns "force" = some (.bool false) ∧
      assocGet ns "reason" = some (.str "urgent need restart") :=
  greedy_binding ["urgent", "need", "restart"] (by decide) (by decide)

/-! ## C9: short option aliases -/

/-- C9 counterexample: for the signature `(source, channel, value,
verbose=False)` the only option is `--verbose`; its first letter `v` is not
`h` and no other OPTION claims it (the only other parameter, `value`, is
positional), so the claim requires the short alias `-v` — but the code also
tests positionals in `any(arg[0] == a[0] and arg != a for a in args)` and
suppresses the alias. -/
theorem short_alias_counterexample :
    makeParser ["source", "channel", "value", "verbose"] [.bool false] false false false =
      .ok ({ opts := [{ dest := "verbose", long := "--verbose", short := none,
                        action := .store true, dflt := .bool false }],
             positionals := ["value"] }, none) ∧
    (none : Option String) ≠ some "-v" :=
  ⟨rfl, by decide⟩

theorem buildOpts_short (args : List String) (dm : List (String × PVal)) :
    ∀ o ∈ buildOpts args dm,
      o.short =
        if (firstLetter o.dest != "h") &&
           !(args.any (fun a => (firstLetter a == firstLetter o.dest) && (a != o.dest)))
        then some ("-" ++ firstLetter o.dest) else none := by
  intro o ho
  simp only [buildOpts, List.mem_filterMap] at ho
  obtain ⟨a, ha, hf⟩ := ho
  cases hd : assocGet dm a with
  | none => rw [hd] at hf; simp at hf
  | some dv =>
    rw [hd] at hf
    simp only [Option.some.injEq] at hf
    subst hf
    rfl

/-- C9 amended: a parameter with a default gets its short alias `-x` (first
letter) iff that letter is not `h` and no OTHER parameter of the signature —
positional or optional alike — shares the same first letter.  In particular
a positional sharing the letter suppresses the alias, and two options
sharing a first letter BOTH lose it (there is no first-come claim). -/
theorem short_alias_rule (argNames : List String) (defaults : List PVal)
    (greedy varargs kwargs : Bool) (spec : ParserSpec) (g : Option String)
    (h : makeParser argNames defaults greedy varargs kwargs = .ok (spec, g)) :
    ∀ o ∈ spec.opts,
      o.short =
        if (firstLetter o.dest != "h") &&
           !((argNames.drop 2).any
             (fun a => (firstLetter a == firstLetter o.dest) && (a != o.dest)))
        then some ("-" ++ firstLetter o.dest) else none := by
  have hopts : spec.opts = buildOpts (argNames.drop 2)
      (buildDefaults (argNames.drop 2) defaults) := by
    unfold makeParser at h
    cases kwargs with
    | true => simp at h
    | false =>
      simp only [Bool.false_eq_true, if_false] at h
      cases hgv : greedy && varargs with
      | true => rw [hgv] at h; simp at h
      | false =>
        rw [hgv] at h
        simp only [Bool.false_eq_true, if_false] at h
        cases greedy with
        | false =>
          simp only [Bool.false_eq_true, if_false, Except.ok.injEq, Prod.mk.injEq] at h
          rw [← h.1]
        | true =>
          simp only [if_true] at h
          cases hl : ((argNames.drop 2).filter
              (fun a => (assocGet (buildDefaults (argNames.drop 2) defaults) a).isNone)).getLast? with
          | none => rw [hl] at h; simp at h
          | some g2 =>
            rw [hl] at h
            simp only [Except.ok.injEq, Prod.mk.injEq] at h
            rw [← h.1]
  rw [hopts]
  exact buildOpts_short (argNames.drop 2) (buildDefaults (argNames.drop 2) defaults)

/-- Parser built for the signature `(source, channel, force, file='x',
verbose=False)`: `file` loses `-f` to the positional `force`, while
`verbose` keeps `-v`. -/
def aliasParser : ParserSpec :=
  { opts := [{ dest := "file", long := "--file", short := none,
               action := .strArg, dflt := .str "x" },
             { dest := "verbose", long := "--verbose", short := some "-v",
               action := .store true, dflt := .bool false }],
    positionals := ["force"] }

theorem short_alias_rule_witness :
    ({ dest := "file", long := "--file", short := none, action := .strArg,
       dflt := .str "x" } : OptSpec).short =
      (if (firstLetter "file" != "h") &&
          !((["source", "channel", "force", "file", "verbose"].drop 2).any
            (fun a => (firstLetter a == firstLetter "file") && (a != "file")))
       then some ("-" ++ firstLetter "file") else none) ∧
    ({ dest := "verbose", long := "--verbose", short := some "-v", action := .store true,
       dflt := .bool false } : OptSpec).short =
      (if (firstLetter "verbose" != "h") &&
          !((["source", "channel", "force", "file", "verbose"].drop 2).any
            (fun a => (firstLetter a == firstLetter "verbose") && (a != "verbose")))
       then some ("-" ++ firstLetter "verbose") else none) :=
  ⟨short_alias_rule ["source", "channel", "force", "file", "verbose"] [.str "x", .bool false]
      false false false aliasParser none rfl
      { dest := "file", long := "--file", short := none, action := .strArg, dflt := .str "x" }
      (by decide),
   short_alias_rule ["source", "channel", "force", "file", "verbose"] [.str "x", .bool false]
      false false false aliasParser none rfl
      { dest := "verbose", long := "--verbose", short := some "-v", action := .store true,
        dflt := .bool false }
      (by decide)⟩

/-! ## Module registration (Bot._register_module / _unregister_module) -/

/-- A bot module as far as registration is concerned: its name and its
`_commands` dict (command name → entry), in insertion order. -/
structure BotModule (α : Type) where
  name : String
  commands : List (String × α)

/-- Registration-relevant bot state: `self.modules` (names of registered
modules), the global `CommandStorage`, the `_handlers` registry flattened to
(IRC command, handler) pairs in registration order, and
`_module_handlers`. -/
structure BotState (α φ : Type) where
  modules : List String
  commands : Storage α
  handlers : List (String × φ)
  moduleHandlers : List (String × List (String × φ))

/-- Python `name in self.modules` on the name list. -/
def hasName : List String → String → Bool
  | [], _ => false
  | x :: rest, n => if x = n then true else hasName rest n

/-- Python `del self.modules[name]` on the name list. -/
def eraseName : List String → String → List String
  | [], _ => []
  | x :: rest, n => if x = n then rest else x :: eraseName rest n

/-- Command-merging loop of `_register_module`:
`for cmd, func in module._commands.iteritems(): self._commands[cmd] = func`
(each `__setitem__` can raise on a collision among the module's own
commands). -/
def registerCommands {α : Type} (d : Storage α) : List (String × α) → Except String (Storage α)
  | [] => .ok d
  | (cmd, v) :: rest =>
    match setItem d cmd v with
    | .error e => .error e
    | .ok d2 => registerCommands d2 rest

/-- `Bot._register_module`: rejects a duplicate module name and any command
colliding with the existing table (`any(cmd in self._commands for cmd in
module._commands)`), then records the module and merges its commands.
A collision among the module's own commands still raises from `__setitem__`
mid-loop; the `Except` model then reports the error and no final state,
which the success-path claims never observe. -/
def registerModule {α φ : Type} (b : BotState α φ) (m : BotModule α) :
    Except String (BotState α φ) :=
  if hasName b.modules m.name then
    .error "A module with this name is already registered"
  else if m.commands.any (fun p => (assocGet b.commands (getKey p.1)).isSome) then
    .error "The module contains a command colliding with an existing command"
  else
    match registerCommands b.commands m.commands with
    | .error e => .error e
    | .ok d => .ok { b with modules := b.modules ++ [m.name], commands := d }

/-- Python `self._module_handlers.setdefault(name, []).append(pair)`. -/
def mhAdd {φ : Type} : List (String × List (String × φ)) → String → String × φ →
    List (String × List (String × φ))
  | [], n, p => [(n, [p])]
  | (k, l) :: rest, n, p =>
    if k = n then (k, l ++ [p]) :: rest else (k, l) :: mhAdd rest n p

/-- `Bot.on` applied to a bound method of a registered module: appends the
handler to `_handlers[cmd]` and records it in
`_module_handlers[module.name]`. -/
def onModuleHandler {α φ : Type} (b : BotState α φ) (modName cmd : String) (f : φ) :
    BotState α φ :=
  { b with handlers := b.handlers ++ [(cmd, f)],
           moduleHandlers := mhAdd b.moduleHandlers modName (cmd, f) }

/-- Python `self._handlers[cmd].remove(f)`: removes the first occurrence,
raising `ValueError` when absent. -/
def removeHandler {φ : Type} [DecidableEq φ] :
    List (String × φ) → String × φ → Except String (List (String × φ))
  | [], _ => .error "ValueError"
  | q :: rest, p =>
    if q = p then .ok rest
    else
      match removeHandler rest p with
      | .error e => .error e
      | .ok l => .ok (q :: l)

/-- The handler-removal loop of `_unregister_module`. -/
def removeHandlers {φ : Type} [DecidableEq φ] :
    List (String × φ) → List (String × φ) → Except String (List (String × φ))
  | l, [] => .ok l
  | l, p :: ps =>
    match removeHandler l p with
    | .error e => .error e
    | .ok l2 => removeHandlers l2 ps

/-- Command-deletion loop of `_unregister_module`:
`for cmd, func in module._commands.iteritems(): del self._commands[cmd]`. -/
def delCommands {α : Type} (d : Storage α) : List (String × α) → Except String (Storage α)
  | [] => .ok d
  | (cmd, _) :: rest =>
    match delItem d cmd with
    | .error e => .error e
    | .ok d2 => delCommands d2 rest

/-- Python `self._module_handlers.get(module.name, [])`. -/
def mhGet {φ : Type} : List (String × List (String × φ)) → String → List (String × φ)
  | [], _ => []
  | (k, l) :: rest, n => if k = n then l else mhGet rest n

/-- Python `self._module_handlers.pop(module.name, None)`. -/
def mhPop {φ : Type} : List (String × List (String × φ)) → String →
    List (String × List (String × φ))
  | [], _ => []
  | (k, l) :: rest, n => if k = n then rest else (k, l) :: mhPop rest n

/-- `Bot._unregister_module`: fails when the module is not registered,
otherwise removes the module name, deletes each of the module's commands
from the global table, removes each handler recorded for the module from
`_handlers`, and pops the module's `_module_handlers` entry. -/
def unregisterModule {α φ : Type} [DecidableEq φ] (b : BotState α φ) (m : BotModule α) :
    Except String (BotState α φ) :=
  if hasName b.modules m.name then
    match delCommands b.commands m.commands with
    | .error e => .error e
    | .ok d =>
      match removeHandlers b.handlers (mhGet b.moduleHandlers m.name) with
      | .error e => .error e
      | .ok l =>
        .ok { modules := eraseName b.modules m.name, commands := d,
              handlers := l, moduleHandlers := mhPop b.moduleHandlers m.name }
  else .error "A module with this name is not registered"

/-! ## C7: register-then-unregister is the identity -/

theorem setItem_ok {α : Type} (d : Storage α) (cmd : String) (v : α) (d2 : Storage α)
    (h : setItem d cmd v = .ok d2) :
    assocGet d (getKey cmd) = none ∧ d2 = d ++ [(getKey cmd, v)] := by
  by_cases hx : (assocGet d (getKey cmd)).isSome = true
  · rw [setItem, if_pos hx] at h
    exact absurd h (by simp)
  · have hn : assocGet d (getKey cmd) = none := by
      cases hg : assocGet d (getKey cmd) with
      | none => rfl
      | some w => exact absurd (by rw [hg]; rfl) hx
    rw [setItem, if_neg hx] at h
    simp only [Except.ok.injEq] at h
    exact ⟨hn, h.symm⟩

theorem assocGet_append_single_none {κ β : Type} [DecidableEq κ] (d : List (κ × β))
    (k0 k : κ) (v : β) (h : assocGet (d ++ [(k0, v)]) k = none) :
    assocGet d k = none ∧ k0 ≠ k := by
  rw [assocGet_append] at h
  cases hg : assocGet d k with
  | some w => rw [hg] at h; simp at h
  | none =>
    rw [hg] at h
    simp only [assocGet] at h
    refine ⟨rfl, ?_⟩
    intro he
    rw [if_pos he] at h
    simp at h

theorem registerCommands_ok {α : Type} :
    ∀ (cmds : List (String × α)) (d d2 : Storage α),
      registerCommands d cmds = .ok d2 →
      d2 = d ++ cmds.map (fun p => (getKey p.1, p.2)) ∧
      (∀ p ∈ cmds, assocGet d (getKey p.1) = none) ∧
      (cmds.map (fun p => getKey p.1)).Nodup := by
  intro cmds
  induction cmds with
  | nil =>
    intro d d2 h
    simp only [registerCommands, Except.ok.injEq] at h
    simp [h]
  | cons p rest ih =>
    intro d d2 h
    rcases p with ⟨cmd, v⟩
    simp only [registerCommands] at h
    cases hs : setItem d cmd v with
    | error e => rw [hs] at h; simp at h
    | ok d1 =>
      rw [hs] at h
      obtain ⟨hfresh, hd1⟩ := setItem_ok d cmd v d1 hs
      obtain ⟨h1, h2, h3⟩ := ih d1 d2 h
      have hrest : ∀ q ∈ rest, assocGet d (getKey q.1) = none ∧ getKey cmd ≠ getKey q.1 := by
        intro q hq
        have := h2 q hq
        rw [hd1] at this
        exact assocGet_append_single_none d (getKey cmd) (getKey q.1) v this
      refine ⟨?_, ?_, ?_⟩
      · rw [h1, hd1]
        simp
      · intro q hq
        rcases List.mem_cons.mp hq with hq1 | hq2
        · rw [hq1]
          exact hfresh
        · exact (hrest q hq2).1
      · rw [List.map_cons, List.nodup_cons]
        refine ⟨?_, h3⟩
        intro hmem
        obtain ⟨q, hq, hkey⟩ := List.mem_map.mp hmem
        exact (hrest q hq).2 hkey.symm

theorem assocErase_append {κ β : Type} [DecidableEq κ] :
    ∀ (l1 : List (κ × β)) (k : κ) (v : β) (l2 : List (κ × β)),
      assocGet l1 k = none →
      assocErase (l1 ++ (k, v) :: l2) k = l1 ++ l2 := by
  intro l1
  induction l1 with
  | nil =>
    intro k v l2 _
    simp [assocErase]
  | cons q rest ih =>
    rcases q with ⟨k2, v2⟩
    intro k v l2 h
    simp only [assocGet] at h
    by_cases he : k2 = k
    · rw [if_pos he] at h
      simp at h
    · rw [if_neg he] at h
      show (if k2 = k then rest ++ (k, v) :: l2
            else (k2, v2) :: assocErase (rest ++ (k, v) :: l2) k) = (k2, v2) :: (rest ++ l2)
      rw [if_neg he, ih k v l2 h]

theorem delCommands_restore {α : Type} :
    ∀ (cmds : List (String × α)) (d : Storage α),
      (∀ p ∈ cmds, assocGet d (getKey p.1) = none) →
      delCommands (d ++ cmds.map (fun p => (getKey p.1, p.2))) cmds = .ok d := by
  intro cmds
  induction cmds with
  | nil =>
    intro d _
    simp [delCommands]
  | cons p rest ih =>
    rcases p with ⟨cmd, v⟩
    intro d h
    have hk : assocGet d (getKey cmd) = none := h (cmd, v) (by simp)
    have hpresent :
        assocGet (d ++ (getKey cmd, v) :: rest.map (fun p => (getKey p.1, p.2))) (getKey cmd)
          = some v := by
      rw [assocGet_append, hk]
      simp [assocGet]
    have herase :
        assocErase (d ++ (getKey cmd, v) :: rest.map (fun p => (getKey p.1, p.2))) (getKey cmd)
          = d ++ rest.map (fun p => (getKey p.1, p.2)) :=
      assocErase_append d (getKey cmd) v _ hk
    simp only [List.map_cons, delCommands, delItem, hpresent, Option.isSome_some, if_true,
      herase]
    exact ih d (fun q hq => h q (by simp [hq]))

theorem removeHandler_append {φ : Type} [DecidableEq φ] :
    ∀ (l1 : List (String × φ)) (p : String × φ) (l2 : List (String × φ)),
      p ∉ l1 → removeHandler (l1 ++ p :: l2) p = .ok (l1 ++ l2) := by
  intro l1
  induction l1 with
  | nil =>
    intro p l2 _
    simp [removeHandler]
  | cons q rest ih =>
    intro p l2 h
    have hq : ¬ (q = p) := by
      intro he
      exact h (by simp [he])
    show (if q = p then Except.ok (rest ++ p :: l2)
          else match removeHandler (rest ++ p :: l2) p with
               | Except.error e => Except.error e
               | Except.ok l => Except.ok (q :: l)) = Except.ok (q :: (rest ++ l2))
    rw [if_neg hq, ih p l2 (fun hm => h (by simp [hm]))]

theorem removeHandlers_restore {φ : Type} [DecidableEq φ] :
    ∀ (hs base : List (String × φ)),
      (∀ p ∈ hs, p ∉ base) →
      removeHandlers (base ++ hs) hs = .ok base := by
  intro hs
  induction hs with
  | nil =>
    intro base _
    simp [removeHandlers]
  | cons p rest ih =>
    intro base h
    simp only [removeHandlers]
    rw [removeHandler_append base p rest (h p (by simp))]
    exact ih base (fun q hq => h q (by simp [hq]))

theorem mhAdd_absent {φ : Type} :
    ∀ (mh : List (String × List (String × φ))) (n : String) (p : String × φ),
      (∀ q ∈ mh, q.1 ≠ n) → mhAdd mh n p = mh ++ [(n, [p])] := by
  intro mh
  induction mh with
  | nil => intro n p _; rfl
  | cons q rest ih =>
    rcases q with ⟨k, l⟩
    intro n p h
    have hk : ¬ (k = n) := h (k, l) (by simp)
    simp only [mhAdd, if_neg hk, List.cons_append, List.cons.injEq, true_and]
    exact ih n p (fun q hq => h q (by simp [hq]))

theorem mhAdd_found {φ : Type} :
    ∀ (mh : List (String × List (String × φ))) (n : String) (acc : List (String × φ))
      (p : String × φ),
      (∀ q ∈ mh, q.1 ≠ n) →
      mhAdd (mh ++ [(n, acc)]) n p = mh ++ [(n, acc ++ [p])] := by
  intro mh
  induction mh with
  | nil =>
    intro n acc p _
    simp [mhAdd]
  | cons q rest ih =>
    rcases q with ⟨k, l⟩
    intro n acc p h
    have hk : ¬ (k = n) := h (k, l) (by simp)
    simp only [List.cons_append, mhAdd, if_neg hk, List.cons.injEq, true_and]
    exact ih n acc p (fun q hq => h q (by simp [hq]))

theorem mhFold_found {φ : Type} (n : String) :
    ∀ (hs : List (String × φ)) (mh : List (String × List (String × φ)))
      (acc : List (String × φ)),
      (∀ q ∈ mh, q.1 ≠ n) →
      hs.foldl (fun m p => mhAdd m n p) (mh ++ [(n, acc)]) = mh ++ [(n, acc ++ hs)] := by
  intro hs
  induction hs with
  | nil =>
    intro mh acc _
    simp
  | cons p rest ih =>
    intro mh acc h
    simp only [List.foldl_cons]
    rw [mhAdd_found mh n acc p h, ih mh (acc ++ [p]) h]
    simp

theorem mhGet_absent {φ : Type} :
    ∀ (mh : List (String × List (String × φ))) (n : String),
      (∀ q ∈ mh, q.1 ≠ n) → mhGet mh n = [] := by
  intro mh
  induction mh with
  | nil => intro n _; rfl
  | cons q rest ih =>
    rcases q with ⟨k, l⟩
    intro n h
    have hk : ¬ (k = n) := h (k, l) (by simp)
    simp only [mhGet, if_neg hk]
    exact ih n (fun q hq => h q (by simp [hq]))

theorem mhGet_found {φ : Type} :
    ∀ (mh : List (String × List (String × φ))) (n : String) (l : List (String × φ)),
      (∀ q ∈ mh, q.1 ≠ n) → mhGet (mh ++ [(n, l)]) n = l := by
  intro mh
  induction mh with
  | nil =>
    intro n l _
    simp [mhGet]
  | cons q rest ih =>
    rcases q with ⟨k, l2⟩
    intro n l h
    have hk : ¬ (k = n) := h (k, l2) (by simp)
    simp only [List.cons_append, mhGet, if_neg hk]
    exact ih n l (fun q hq => h q (by simp [hq]))

theorem mhPop_absent {φ : Type} :
    ∀ (mh : List (String × List (String × φ))) (n : String),
      (∀ q ∈ mh, q.1 ≠ n) → mhPop mh n = mh := by
  intro mh
  induction mh with
  | nil => intro n _; rfl
  | cons q rest ih =>
    rcases q with ⟨k, l⟩
    intro n h
    have hk : ¬ (k = n) := h (k, l) (by simp)
    simp only [mhPop, if_neg hk, List.cons.injEq, true_and]
    exact ih n (fun q hq => h q (by simp [hq]))

theorem mhPop_found {φ : Type} :
    ∀ (mh : List (String × List (String × φ))) (n : String) (l : List (String × φ)),
      (∀ q ∈ mh, q.1 ≠ n) → mhPop (mh ++ [(n, l)]) n = mh := by
  intro mh
  induction mh with
  | nil =>
    intro n l _
    simp [mhPop]
  | cons q rest ih =>
    rcases q with ⟨k, l2⟩
    intro n l h
    have hk : ¬ (k = n) := h (k, l2) (by simp)
    simp only [List.cons_append, mhPop, if_neg hk, List.cons.injEq, true_and]
    exact ih n l (fun q hq => h q (by simp [hq]))

theorem hasName_append_self : ∀ (l : List String) (n : String),
    hasName (l ++ [n]) n = true := by
  intro l
  induction l with
  | nil => intro n; simp [hasName]
  | cons x rest ih =>
    intro n
    by_cases hx : x = n
    · simp [hasName, hx]
    · simp only [List.cons_append, hasName, if_neg hx]
      exact ih n

theorem eraseName_append : ∀ (l : List String) (n : String),
    hasName l n = false → eraseName (l ++ [n]) n = l := by
  intro l
  induction l with
  | nil =>
    intro n _
    simp [eraseName]
  | cons x rest ih =>
    intro n h
    have hx : ¬ (x = n) := by
      intro he
      rw [hasName, if_pos he] at h
      exact absurd h (by simp)
    rw [hasName, if_neg hx] at h
    simp only [List.cons_append, eraseName, if_neg hx, List.cons.injEq, true_and]
    exact ih n h

theorem onModuleHandler_foldl {α φ : Type} (n : String) :
    ∀ (hs : List (String × φ)) (b : BotState α φ),
      (hs.foldl (fun b2 p => onModuleHandler b2 n p.1 p.2) b).modules = b.modules ∧
      (hs.foldl (fun b2 p => onModuleHandler b2 n p.1 p.2) b).commands = b.commands ∧
      (hs.foldl (fun b2 p => onModuleHandler b2 n p.1 p.2) b).handlers = b.handlers ++ hs ∧
      (hs.foldl (fun b2 p => onModuleHandler b2 n p.1 p.2) b).moduleHandlers =
        hs.foldl (fun mh p => mhAdd mh n p) b.moduleHandlers := by
  intro hs
  induction hs with
  | nil =>
    intro b
    simp
  | cons p rest ih =>
    intro b
    simp only [List.foldl_cons]
    obtain ⟨h1, h2, h3, h4⟩ := ih (onModuleHandler b n p.1 p.2)
    refine ⟨by rw [h1]; rfl, by rw [h2]; rfl, ?_, by rw [h4]; rfl⟩
    rw [h3]
    simp [onModuleHandler]

/-- C7: for every bot state and module whose registration succeeds,
registering the module, letting it register any fresh handlers, and then
unregistering it restores the bot's global structures exactly: the Command
Table, the handler registry, the module list and the per-module handler
records all return to their pre-registration values — every command the
module contributed is removed, nothing belonging to anyone else is removed,
and none of its handlers remains reachable. -/
theorem register_unregister_id {α φ : Type} [DecidableEq φ]
    (b0 : BotState α φ) (m : BotModule α) (hs : List (String × φ)) (b1 : BotState α φ)
    (hreg : registerModule b0 m = .ok b1)
    (hfresh : ∀ p ∈ hs, p ∉ b0.handlers)
    (hmh : ∀ q ∈ b0.moduleHandlers, q.1 ≠ m.name) :
    unregisterModule (hs.foldl (fun b2 p => onModuleHandler b2 m.name p.1 p.2) b1) m =
      .ok b0 := by
  unfold registerModule at hreg
  cases hnm : hasName b0.modules m.name with
  | true => rw [hnm] at hreg; simp at hreg
  | false =>
    rw [hnm] at hreg
    simp only [Bool.false_eq_true, if_false] at hreg
    cases hcol : m.commands.any (fun p => (assocGet b0.commands (getKey p.1)).isSome) with
    | true => rw [hcol] at hreg; simp at hreg
    | false =>
      rw [hcol] at hreg
      simp only [Bool.false_eq_true, if_false] at hreg
      cases hrc : registerCommands b0.commands m.commands with
      | error e => rw [hrc] at hreg; simp at hreg
      | ok d =>
        rw [hrc] at hreg
        simp only [Except.ok.injEq] at hreg
        obtain ⟨hents, hfreshkeys, _⟩ := registerCommands_ok m.commands b0.commands d hrc
        obtain ⟨hb2mods, hb2cmds, hb2hands, hb2mh⟩ :=
          onModuleHandler_foldl m.name hs b1
        have hb1mods : b1.modules = b0.modules ++ [m.name] := by rw [← hreg]
        have hb1cmds : b1.commands = d := by rw [← hreg]
        have hb1hands : b1.handlers = b0.handlers := by rw [← hreg]
        have hb1mh : b1.moduleHandlers = b0.moduleHandlers := by rw [← hreg]
        have hmods2 : (hs.foldl (fun b2 p => onModuleHandler b2 m.name p.1 p.2) b1).modules =
            b0.modules ++ [m.name] := by rw [hb2mods, hb1mods]
        have hcmds2 : (hs.foldl (fun b2 p => onModuleHandler b2 m.name p.1 p.2) b1).commands =
            b0.commands ++ m.commands.map (fun p => (getKey p.1, p.2)) := by
          rw [hb2cmds, hb1cmds, hents]
        have hhands2 : (hs.foldl (fun b2 p => onModuleHandler b2 m.name p.1 p.2) b1).handlers =
            b0.handlers ++ hs := by rw [hb2hands, hb1hands]
        have hmhget : mhGet
            (hs.foldl (fun b2 p => onModuleHandler b2 m.name p.1 p.2) b1).moduleHandlers
            m.name = hs := by
          rw [hb2mh, hb1mh]
          cases hs with
          | nil => exact mhGet_absent b0.moduleHandlers m.name hmh
          | cons p rest =>
            simp only [List.foldl_cons]
            rw [mhAdd_absent b0.moduleHandlers m.name p hmh,
              mhFold_found m.name rest b0.moduleHandlers [p] hmh,
              mhGet_found b0.moduleHandlers m.name ([p] ++ rest) hmh]
            rfl
        have hmhpop : mhPop
            (hs.foldl (fun b2 p => onModuleHandler b2 m.name p.1 p.2) b1).moduleHandlers
            m.name = b0.moduleHandlers := by
          rw [hb2mh, hb1mh]
          cases hs with
          | nil => exact mhPop_absent b0.moduleHandlers m.name hmh
          | cons p rest =>
            simp only [List.foldl_cons]
            rw [mhAdd_absent b0.moduleHandlers m.name p hmh,
              mhFold_found m.name rest b0.moduleHandlers [p] hmh,
              mhPop_found b0.moduleHandlers m.name ([p] ++ rest) hmh]
        unfold unregisterModule
        rw [hmods2, hasName_append_self, hcmds2,
          delCommands_restore m.commands b0.commands hfreshkeys, hmhget, hhands2,
          removeHandlers_restore hs b0.handlers hfresh,
          eraseName_append b0.modules m.name hnm, hmhpop]
        rfl

/-- Concrete bot and module used to witness C7. -/
def demoBot : BotState String String :=
  { modules := ["core"],
    commands := [(["ping"], "func_ping")],
    handlers := [("PRIVMSG", "core_privmsg")],
    moduleHandlers := [("core", [("PRIVMSG", "core_privmsg")])] }

def demoModule : BotModule String :=
  { name := "music", commands := [("playlist", "func_show_playlist"),
                                  ("playlist off", "func_playlist_off")] }

theorem register_unregister_id_witness :
    unregisterModule
      ([("366", "music_names")].foldl
        (fun b2 p => onModuleHandler b2 demoModule.name p.1 p.2)
        { modules := ["core", "music"],
          commands := [(["ping"], "func_ping"),
                       (["playlist"], "func_show_playlist"),
                       (["playlist", "off"], "func_playlist_off")],
          handlers := [("PRIVMSG", "core_privmsg")],
          moduleHandlers := [("core", [("PRIVMSG", "core_privmsg")])] })
      demoModule = .ok demoBot :=
  register_unregister_id demoBot demoModule [("366", "music_names")]
    { modules := ["core", "music"],
      commands := [(["ping"], "func_ping"),
                   (["playlist"], "func_show_playlist"),
                   (["playlist", "off"], "func_playlist_off")],
      handlers := [("PRIVMSG", "core_privmsg")],
      moduleHandlers := [("core", [("PRIVMSG", "core_privmsg")])] }
    rfl (by decide) (by decide)

end FlaskIRC
